import Mathlib

/-!
Verification of the `dbt_multi_adapter_utils` core (jinja_parser.py,
model_rewriter.py, scanner.py, sqlglot_adapter.py) against its
natural-language specification.

Source text is modelled as `List Char`.  The two external libraries the
code calls into — the Jinja2 lexer and the sqlglot SQL parser/renderer —
are not part of this repository; they enter the development as explicit
function parameters (`lex`, `plan`, `parse_fns`) or as fields of the
abstract `FuncNode` record, and the properties the source relies on are
stated as explicit hypotheses of the theorems that need them.
-/

namespace DbtMAU

/-- Source text, `str` in the Python source, modelled as a list of
characters so that slicing is `drop`/`take`. -/
abbrev Str := List Char

/-- The `{` character (written via its code so it cannot be mistaken
for interpolation syntax). -/
def obr : Char := '\x7b'

/-- The `}` character. -/
def cbr : Char := '\x7d'

/-- A single-quote character. -/
def sq : Char := '\''

/-- ASCII uppercase/lowercase table used to model Python `str.lower()`
on the ASCII range (all strings handled by the source are ASCII). -/
def asciiUpperLower : List (Char × Char) :=
  [('A', 'a'), ('B', 'b'), ('C', 'c'), ('D', 'd'), ('E', 'e'), ('F', 'f'),
   ('G', 'g'), ('H', 'h'), ('I', 'i'), ('J', 'j'), ('K', 'k'), ('L', 'l'),
   ('M', 'm'), ('N', 'n'), ('O', 'o'), ('P', 'p'), ('Q', 'q'), ('R', 'r'),
   ('S', 's'), ('T', 't'), ('U', 'u'), ('V', 'v'), ('W', 'w'), ('X', 'x'),
   ('Y', 'y'), ('Z', 'z')]

/-- Lower-case one character (ASCII model of Python `str.lower`). -/
def charLower (c : Char) : Char :=
  match asciiUpperLower.find? (fun p => p.1 == c) with
  | some p => p.2
  | none => c

/-- Python `s.lower()`. -/
def lowerStr (s : Str) : Str := s.map charLower

/-- Python whitespace characters (ASCII range), as used by `str.strip`,
`str.isspace` and the `\s` regex class. -/
def isPySpace (c : Char) : Bool :=
  c == ' ' || c == '\t' || c == '\n' || c == '\r' || c == '\x0b' || c == '\x0c'

/-- Python `s.strip()` (both ends, default whitespace). -/
def stripPy (s : Str) : Str :=
  ((s.dropWhile isPySpace).reverse.dropWhile isPySpace).reverse

/-! ## jinja_parser.py -/

/-- `_JinjaRegionType` from jinja_parser.py. -/
inductive RegionType where
  | STATIC
  | SAFE_EXPRESSION
  | CONTROL_FLOW
  | UNSAFE
deriving DecidableEq

/-- A token of the (external) Jinja2 lexer: its `type` tag and its
`value` text, the only two fields the source reads. -/
structure Token where
  type : String
  value : Str
deriving DecidableEq

/-- `_JinjaRegion` from jinja_parser.py. -/
structure JinjaRegion where
  start : Nat
  end_ : Nat
  region_type : RegionType
  content : Str
deriving DecidableEq

/-- `SafetyCheckResult` from jinja_parser.py. -/
structure SafetyCheckResult where
  can_rewrite : Bool
  reason : String
deriving DecidableEq

/-- `SafeSqlRegion` from jinja_parser.py. -/
structure SafeSqlRegion where
  start : Nat
  end_ : Nat
  masked_sql : Str
deriving DecidableEq

/-- `_SAFE_FUNCTIONS` from jinja_parser.py. -/
def SAFE_FUNCTIONS : List Str :=
  ["ref", "source", "var", "config", "this", "target", "env_var"].map
    String.toList

/-- `_CONTROL_FLOW_KEYWORDS` from jinja_parser.py. -/
def CONTROL_FLOW_KEYWORDS : List Str :=
  ["if", "elif", "else", "endif", "for", "endfor", "block", "endblock",
   "macro", "endmacro", "set", "endset"].map String.toList

/-- `_START_POS` from jinja_parser.py. -/
def START_POS : Nat := 0

/-- `_is_safe_expression`: the first `name` token decides; no `name`
token means not safe. -/
def is_safe_expression : List Token → Bool
  | [] => false
  | token :: rest =>
    if token.type = "name" then decide (token.value ∈ SAFE_FUNCTIONS)
    else is_safe_expression rest

/-- `_is_control_flow`: the first `name` token decides. -/
def is_control_flow : List Token → Bool
  | [] => false
  | token :: rest =>
    if token.type = "name" then decide (token.value ∈ CONTROL_FLOW_KEYWORDS)
    else is_control_flow rest

/-- `_collect_expression_tokens`: starting at the current index, collect
tokens up to and including the first `variable_end`/`block_end`; returns
the collected tokens and the remaining stream. -/
def collect_expression_tokens : List Token → List Token × List Token
  | [] => ([], [])
  | token :: rest =>
    if token.type = "variable_end" ∨ token.type = "block_end" then
      ([token], rest)
    else
      let r := collect_expression_tokens rest
      (token :: r.1, r.2)

/-- `_classify_expression` from jinja_parser.py. -/
def classify_expression (tokens : List Token) (is_block : Bool) : RegionType :=
  if is_block then
    if is_control_flow tokens then RegionType.CONTROL_FLOW else RegionType.UNSAFE
  else
    if is_safe_expression tokens then RegionType.SAFE_EXPRESSION else RegionType.UNSAFE

/-- `_create_static_region` from jinja_parser.py. -/
def create_static_region (start : Nat) (content : Str) : JinjaRegion :=
  { start := start
    end_ := start + content.length
    region_type := RegionType.STATIC
    content := content }

/-- `"".join(token.value for token in tokens)`. -/
def joinValues : List Token → Str
  | [] => []
  | t :: ts => t.value ++ joinValues ts

/-- `sum(len(t.value) for t in result.tokens)`. -/
def sumValueLens : List Token → Nat
  | [] => 0
  | t :: ts => t.value.length + sumValueLens ts

/-- `_create_expression_region` from jinja_parser.py. -/
def create_expression_region (start : Nat) (tokens : List Token)
    (region_type : RegionType) : JinjaRegion :=
  let content := joinValues tokens
  { start := start
    end_ := start + content.length
    region_type := region_type
    content := content }

/-- The loop of `_process_token_stream`, with an explicit fuel argument
(the loop always advances the index, so fuel `= length of the stream`
suffices); `data` tokens become static regions, expression/block openers
start a collected expression region, any other token only advances the
position. -/
def process_token_stream_fuel : Nat → List Token → Nat → List JinjaRegion
  | _, [], _ => []
  | 0, _ :: _, _ => []
  | fuel + 1, token :: rest, pos =>
    if token.type = "data" then
      create_static_region pos token.value ::
        process_token_stream_fuel fuel rest (pos + token.value.length)
    else if token.type = "variable_begin" ∨ token.type = "block_begin" then
      let res := collect_expression_tokens (token :: rest)
      let expr_len := sumValueLens res.1
      create_expression_region pos res.1
          (classify_expression res.1 (token.type = "block_begin")) ::
        process_token_stream_fuel fuel res.2 (pos + expr_len)
    else
      process_token_stream_fuel fuel rest (pos + token.value.length)

/-- `_process_token_stream` from jinja_parser.py. -/
def process_token_stream (token_stream : List Token) : List JinjaRegion :=
  process_token_stream_fuel token_stream.length token_stream START_POS

/-- `_analyze_jinja_template`: the lexer (`lex`, the external Jinja2
`tokenize`, `None` for a lexing failure) decides the stream; on failure
the whole text is a single `UNSAFE` region, an empty region list becomes
a single whole-text static region. -/
def analyze_jinja_template (lex : Str → Option (List Token)) (template_text : Str) :
    List JinjaRegion :=
  match lex template_text with
  | none =>
    [{ start := START_POS
       end_ := template_text.length
       region_type := RegionType.UNSAFE
       content := template_text }]
  | some token_stream =>
    let regions := process_token_stream token_stream
    if regions = [] then [create_static_region START_POS template_text]
    else regions

/-- `any(r.region_type == _JinjaRegionType.UNSAFE for r in self.regions)`. -/
def hasUnsafeRegion (regions : List JinjaRegion) : Bool :=
  regions.any (fun r => r.region_type == RegionType.UNSAFE)

/-- `JinjaTemplate.can_safely_rewrite` from jinja_parser.py. -/
def can_safely_rewrite (regions : List JinjaRegion) : SafetyCheckResult :=
  if hasUnsafeRegion regions then
    { can_rewrite := false, reason := "Template contains complex Jinja expressions" }
  else
    { can_rewrite := true, reason := "Template is safe to rewrite" }

/-- The masked-text accumulation of `JinjaTemplate.extract_safe_sql_regions`:
static content verbatim, safe expressions become `" __PLACEHOLDER__ "`,
control flow and unsafe regions become `" __JINJA__, "`. -/
def maskRegions : List JinjaRegion → Str
  | [] => []
  | r :: rs =>
    (match r.region_type with
     | RegionType.STATIC => r.content
     | RegionType.SAFE_EXPRESSION => " __PLACEHOLDER__ ".toList
     | RegionType.CONTROL_FLOW => " __JINJA__, ".toList
     | RegionType.UNSAFE => " __JINJA__, ".toList) ++ maskRegions rs

/-- `JinjaTemplate.extract_safe_sql_regions`: one whole-file span if the
masked content has any non-whitespace, otherwise no span. -/
def extract_safe_sql_regions (regions : List JinjaRegion) (template_text : Str) :
    List SafeSqlRegion :=
  let masked_content := maskRegions regions
  if (stripPy masked_content) ≠ [] then
    [{ start := 0, end_ := template_text.length, masked_sql := masked_content }]
  else
    []

/-! ## Region tiling (claim C1) -/

/-- A faithful lexer output has only `data` tokens and collected
expression units at top level (the structural tokens the source skips
with `_process_other_token` occur only inside collected units); this
predicate mirrors the branch structure of `_process_token_stream`. -/
def goodTopLevelFuel : Nat → List Token → Bool
  | _, [] => true
  | 0, _ :: _ => false
  | fuel + 1, token :: rest =>
    if token.type = "data" then goodTopLevelFuel fuel rest
    else if token.type = "variable_begin" ∨ token.type = "block_begin" then
      goodTopLevelFuel fuel (collect_expression_tokens (token :: rest)).2
    else false

/-- Top-level well-formedness of a token stream. -/
def goodTopLevel (token_stream : List Token) : Bool :=
  goodTopLevelFuel token_stream.length token_stream

/-- `tilesFrom t pos rs`: the regions `rs` tile `[pos, len t)` exactly —
each region starts where the previous one ended, its `end_` is
`start + len content`, its `content` is the corresponding slice of `t`,
and the last region ends at `len t`. -/
def tilesFrom (t : Str) : Nat → List JinjaRegion → Bool
  | pos, [] => pos == t.length
  | pos, r :: rs =>
    (r.start == pos) && (r.end_ == pos + r.content.length) &&
      (decide (r.content = (t.drop pos).take r.content.length)) &&
      tilesFrom t r.end_ rs

/-- The ordered region list partitions `[0, len t)` with no gaps or
overlaps and content equal to the original slice. -/
def exactTiling (t : Str) (rs : List JinjaRegion) : Bool := tilesFrom t 0 rs

lemma collect_snd_length_le (l : List Token) :
    (collect_expression_tokens l).2.length ≤ l.length := by
  induction l with
  | nil => simp [collect_expression_tokens]
  | cons t ts ih =>
    simp only [collect_expression_tokens]
    split
    · simp
    · simpa using Nat.le_succ_of_le ih

lemma joinValues_collect (l : List Token) :
    joinValues l =
      joinValues (collect_expression_tokens l).1 ++
        joinValues (collect_expression_tokens l).2 := by
  induction l with
  | nil => simp [collect_expression_tokens, joinValues]
  | cons t ts ih =>
    simp only [collect_expression_tokens, joinValues]
    split
    · simp [joinValues]
    · simp only [joinValues, List.append_assoc]
      rw [ih]

lemma sumValueLens_eq_length_join (l : List Token) :
    sumValueLens l = (joinValues l).length := by
  induction l with
  | nil => rfl
  | cons t ts ih => simp [sumValueLens, joinValues, ih]

lemma process_fuel_tiles : ∀ (fuel : Nat) (ts : List Token) (pre : Str),
    ts.length ≤ fuel → goodTopLevelFuel fuel ts = true →
    tilesFrom (pre ++ joinValues ts) pre.length
      (process_token_stream_fuel fuel ts pre.length) = true := by
  intro fuel
  induction fuel with
  | zero =>
    intro ts pre hlen _
    have hts : ts = [] := List.length_eq_zero.mp (Nat.le_zero.mp hlen)
    subst hts
    simp [process_token_stream_fuel, joinValues, tilesFrom]
  | succ n ih =>
    intro ts pre hlen hgood
    match ts with
    | [] => simp [process_token_stream_fuel, joinValues, tilesFrom]
    | token :: rest =>
      have hlen' : rest.length ≤ n := by
        simp only [List.length_cons] at hlen; omega
      by_cases hdata : token.type = "data"
      · -- data token: one static region, recurse on the rest
        simp only [process_token_stream_fuel, if_pos hdata] at *
        simp only [goodTopLevelFuel, if_pos hdata] at hgood
        simp only [joinValues, tilesFrom, create_static_region, beq_self_eq_true,
          Bool.true_and, Bool.and_eq_true, decide_eq_true_eq]
        have := ih rest (pre ++ token.value) hlen' hgood
        simpa [List.append_assoc, List.length_append] using this
      · by_cases hvb : token.type = "variable_begin" ∨ token.type = "block_begin"
        · -- expression/block opener: one collected expression region
          have hne : ¬(token.type = "variable_end" ∨ token.type = "block_end") := by
            rcases hvb with h | h <;> rw [h] <;> decide
          have hcoll : collect_expression_tokens (token :: rest) =
              (token :: (collect_expression_tokens rest).1,
               (collect_expression_tokens rest).2) := by
            simp only [collect_expression_tokens, if_neg hne]
          simp only [process_token_stream_fuel, if_neg hdata, if_pos hvb] at *
          simp only [goodTopLevelFuel, if_neg hdata, if_pos hvb] at hgood
          have hsplit := joinValues_collect (token :: rest)
          set res := collect_expression_tokens (token :: rest) with hres
          have hlen2 : res.2.length ≤ n := by
            rw [hcoll]
            exact le_trans (collect_snd_length_le rest) hlen'
          simp only [tilesFrom, create_expression_region, sumValueLens_eq_length_join,
            beq_self_eq_true, Bool.true_and, Bool.and_eq_true, decide_eq_true_eq]
          rw [hsplit]
          have := ih res.2 (pre ++ joinValues res.1) hlen2 hgood
          simpa [List.append_assoc, List.length_append] using this
        · -- any other token would be skipped: excluded by goodTopLevel
          simp only [goodTopLevelFuel, if_neg hdata, if_pos hvb] at hgood
          exact absurd hgood (by simp [goodTopLevelFuel, if_neg hdata, if_neg hvb])

/-- **C1** (region tiling): for every source text `t`, classifying `t`
yields an ordered region list whose `(start, end)` pairs partition
`[0, len t)` exactly, with no gaps or overlaps, and each region's
`content` equal to `t[start:end]`.  The Jinja2 lexer is external to the
repository; the hypothesis states its interface as the spec describes
it — the token values concatenate back to the original text and the top
level of the stream consists of data tokens and collected
expression/block units (a lexer *failure* needs no hypothesis: the
single whole-text `UNSAFE` region tiles trivially). -/
theorem c1_region_tiling (lex : Str → Option (List Token)) (t : Str)
    (hlex : ∀ ts, lex t = some ts → goodTopLevel ts = true ∧ joinValues ts = t) :
    exactTiling t (analyze_jinja_template lex t) = true := by
  unfold analyze_jinja_template
  cases hl : lex t with
  | none =>
    simp [exactTiling, tilesFrom, List.take_length, START_POS]
  | some ts =>
    obtain ⟨hg, hf⟩ := hlex ts hl
    have hmain := process_fuel_tiles ts.length ts [] le_rfl hg
    simp only [List.nil_append, List.length_nil] at hmain
    rw [hf] at hmain
    simp only [process_token_stream, START_POS]
    by_cases hreg : process_token_stream_fuel ts.length ts 0 = []
    · rw [hreg] at hmain
      simp only [tilesFrom, beq_iff_eq] at hmain
      have ht : t = [] := List.length_eq_zero.mp hmain.symm
      subst ht
      rw [if_pos hreg]
      decide
    · rw [if_neg hreg]
      exact hmain

/-- A one-data-token lexer used to witness `c1_region_tiling`. -/
def lexOneData : Str → Option (List Token) :=
  fun s => some [{ type := "data", value := s }]

/-- Witness for C1 at the concrete source text `SELECT 1`. -/
theorem c1_region_tiling_witness :
    exactTiling ("SELECT 1".toList)
      (analyze_jinja_template lexOneData ("SELECT 1".toList)) = true :=
  c1_region_tiling lexOneData ("SELECT 1".toList)
    (fun ts h => by
      simp only [lexOneData, Option.some_inj] at h
      subst h
      exact ⟨by decide, by decide⟩)

/-! ## sqlglot_adapter.py -/

/-- `_DIALECT_MAP` from sqlglot_adapter.py. -/
def DIALECT_MAP : List (Str × Str) :=
  [("postgres", "postgres"), ("postgresql", "postgres"),
   ("snowflake", "snowflake"), ("bigquery", "bigquery"), ("spark", "spark"),
   ("databricks", "databricks"), ("redshift", "redshift"),
   ("duckdb", "duckdb"), ("trino", "trino"), ("presto", "presto")].map
    (fun p => (p.1.toList, p.2.toList))

/-- `normalize_dialect` from sqlglot_adapter.py: lower-case, then map
through the alias table, unknown identifiers pass through lower-cased. -/
def normalize_dialect (adapter : Str) : Str :=
  let normalized := lowerStr adapter
  match DIALECT_MAP.find? (fun p => p.1 == normalized) with
  | some p => p.2
  | none => normalized

/-! ## model_rewriter.py -/

/-- An sqlglot `exp.Func` node, abstracted to the three observations the
source makes of it: `node.sql()` (no dialect), `node.sql(dialect=d)`
(`none` models a raised rendering exception), and whether `node.args`
is empty. -/
structure FuncNode where
  sqlNoDialect : Str
  sqlDialect : Str → Option Str
  argsEmpty : Bool

/-- The fixed argument-less aggregate exclusion set of
`_should_rewrite_function`. -/
def UNIFORM_AGG_NAMES : List Str :=
  ["count", "sum", "min", "max", "avg"].map String.toList

/-- `_should_rewrite_function` from model_rewriter.py. -/
def should_rewrite_function (func_name : Str) (node : FuncNode) : Bool :=
  let func_sql := node.sqlNoDialect
  let func_lower := lowerStr func_name
  if '*' ∈ func_sql then false
  else !(node.argsEmpty && decide (func_lower ∈ UNIFORM_AGG_NAMES))

/-- The loop of `_function_differs_across_dialects`: `acc` is the set of
distinct transpiled renderings seen so far; a rendering failure returns
`True` immediately. -/
def function_differs_aux (node : FuncNode) (acc : List Str) : List Str → Bool
  | [] => decide (1 < acc.length)
  | dialect :: rest =>
    match node.sqlDialect (normalize_dialect dialect) with
    | none => true
    | some transpiled =>
      function_differs_aux node
        (if transpiled ∈ acc then acc else transpiled :: acc) rest

/-- `_function_differs_across_dialects` from model_rewriter.py. -/
def function_differs_across_dialects (node : FuncNode) (dialects : List Str) : Bool :=
  function_differs_aux node [] dialects

/-- ASCII letter test (both cases), for the `[A-Z_]`/`IGNORECASE`
character class of `_create_macro_call`'s regex. -/
def isAsciiAlpha (c : Char) : Bool :=
  ('A' ≤ c && c ≤ 'Z') || ('a' ≤ c && c ≤ 'z')

/-- First character of the regex identifier: `[A-Z_]` with IGNORECASE. -/
def isIdentStartChar (c : Char) : Bool := isAsciiAlpha c || c == '_'

/-- Subsequent identifier characters: `[A-Z0-9_]` with IGNORECASE. -/
def isIdentChar (c : Char) : Bool := isIdentStartChar c || ('0' ≤ c && c ≤ '9')

/-- The regex of `_create_macro_call`,
`[A-Z_][A-Z0-9_]*\s*\((.*)\)$` with IGNORECASE and DOTALL, as a match
function returning the parenthesised group: an identifier, optional
whitespace, `(`, then everything up to a final `)`. -/
def matchFuncCallArgs (s : Str) : Option Str :=
  match s with
  | [] => none
  | c :: rest =>
    if isIdentStartChar c then
      let afterIdent := rest.dropWhile isIdentChar
      let afterSpace := afterIdent.dropWhile isPySpace
      match afterSpace with
      | '(' :: rest2 =>
        if rest2.getLast? = some ')' then some rest2.dropLast else none
      | _ => none
    else none

/-- `_create_macro_call` from model_rewriter.py, taking the already
rendered `func_sql` (`node.sql(dialect=primary_dialect)`). -/
def create_macro_call (func_name : Str) (func_sql : Str) : Str :=
  let macro_name := "portable_".toList ++ lowerStr func_name
  match matchFuncCallArgs func_sql with
  | some args =>
    let args_str := stripPy args
    if args_str ≠ [] ∧ ¬(args_str.head? = some sq ∨ args_str.head? = some '"') then
      [obr, obr, ' '] ++ macro_name ++ ['(', sq] ++ args_str ++ [sq, ')', ' ', cbr, cbr]
    else
      [obr, obr, ' '] ++ macro_name ++ ['('] ++ args_str ++ [')', ' ', cbr, cbr]
  | none =>
    [obr, obr, ' '] ++ macro_name ++ ['(', ')', ' ', cbr, cbr]

/-- Every macro call built by `_create_macro_call` begins with this
text. -/
def macroCallTextPrefix : Str := [obr, obr, ' '] ++ "portable_".toList

/-- A rewrite directive `(depth, func_sql, macro_call)` as produced by
`_filter_rewritable_functions`. -/
abbrev RewriteDirective := Nat × Str × Str

/-- `_filter_rewritable_functions` from model_rewriter.py.  The
`node.sql(dialect=primary_dialect)` call on line 109 is not guarded by
`try`, so a rendering failure there propagates: modelled with `Except`. -/
def filter_rewritable_functions (all_functions : List (Nat × Str × FuncNode))
    (dialects : List Str) (primary_dialect : Str) :
    Except Unit (List RewriteDirective) :=
  match all_functions with
  | [] => Except.ok []
  | (depth, func_name, node) :: rest =>
    if !should_rewrite_function func_name node then
      filter_rewritable_functions rest dialects primary_dialect
    else if !function_differs_across_dialects node dialects then
      filter_rewritable_functions rest dialects primary_dialect
    else
      match node.sqlDialect primary_dialect with
      | none => Except.error ()
      | some func_sql =>
        (filter_rewritable_functions rest dialects primary_dialect).map
          (fun tail => (depth, func_sql, create_macro_call func_name func_sql) :: tail)

/-- Python `hay.find(needle)`: index of the first occurrence, `none`
for `-1`. -/
def findFirstIdx (needle : Str) : Str → Option Nat
  | [] => if needle.isPrefixOf ([] : Str) then some 0 else none
  | c :: rest =>
    if needle.isPrefixOf (c :: rest) then some 0
    else (findFirstIdx needle rest).map (· + 1)

/-- Python `needle in hay` (substring containment). -/
def isSubstrOf (needle hay : Str) : Bool := (findFirstIdx needle hay).isSome

/-- Python `hay.replace(needle, replacement, 1)`: replace the first
occurrence only. -/
def replaceFirst (hay needle replacement : Str) : Str :=
  match findFirstIdx needle hay with
  | none => hay
  | some i => hay.take i ++ replacement ++ hay.drop (i + needle.length)

/-- `_find_pattern_in_region` from model_rewriter.py: exact containment
first, then a case-insensitive search recovering the original casing
from the region text. -/
def find_pattern_in_region (func_sql modified_region : Str) : Option Str :=
  if isSubstrOf func_sql modified_region then some func_sql
  else
    let func_sql_lower := lowerStr func_sql
    let modified_region_lower := lowerStr modified_region
    if isSubstrOf func_sql_lower modified_region_lower then
      let start_pos := (findFirstIdx func_sql_lower modified_region_lower).getD 0
      some ((modified_region.drop start_pos).take func_sql.length)
    else none

/-- Python `hay.count(needle)` (non-overlapping, left to right), via a
skip counter that jumps over a match just counted. -/
def countOccurAux (needle : Str) : Str → Nat → Nat
  | [], _ => 0
  | c :: rest, skip =>
    if skip ≠ 0 then countOccurAux needle rest (skip - 1)
    else if needle ≠ [] ∧ needle.isPrefixOf (c :: rest) then
      1 + countOccurAux needle rest (needle.length - 1)
    else countOccurAux needle rest 0

/-- Python `hay.count(needle)`. -/
def countOccur (needle hay : Str) : Nat := countOccurAux needle hay 0

/-- The `"{{"` delimiter. -/
def jinjaOpenDelim : Str := [obr, obr]

/-- The `"}}"` delimiter. -/
def jinjaCloseDelim : Str := [cbr, cbr]

/-- `_is_inside_jinja_macro` from model_rewriter.py: the first
occurrence of the pattern is inside an expression when the text before
it holds more openers than closers. -/
def is_inside_jinja_expr (pattern_to_find modified_region : Str) : Bool :=
  match findFirstIdx pattern_to_find modified_region with
  | none => false
  | some pattern_pos =>
    let before_pattern := modified_region.take pattern_pos
    decide (((countOccur jinjaOpenDelim before_pattern : Int) -
      (countOccur jinjaCloseDelim before_pattern : Int)) > 0)

/-- One iteration of the loop in `_apply_replacements_to_region`. -/
def apply_step_to_region (modified_region : Str) (d : RewriteDirective) : Str :=
  match find_pattern_in_region d.2.1 modified_region with
  | none => modified_region
  | some pattern_to_find =>
    if is_inside_jinja_expr pattern_to_find modified_region then modified_region
    else replaceFirst modified_region pattern_to_find d.2.2

/-- `_apply_replacements_to_region` from model_rewriter.py. -/
def apply_replacements_to_region (original_region_sql : Str)
    (functions_to_rewrite : List RewriteDirective) : Str :=
  match functions_to_rewrite with
  | [] => original_region_sql
  | d :: ds => apply_replacements_to_region (apply_step_to_region original_region_sql d) ds

/-- Stable insertion of a directive into a list kept in descending
`func_sql`-length order. -/
def insert_desc_by_len (d : RewriteDirective) : List RewriteDirective → List RewriteDirective
  | [] => [d]
  | e :: es =>
    if e.2.1.length ≤ d.2.1.length then d :: e :: es
    else e :: insert_desc_by_len d es

/-- `functions_to_rewrite.sort(key=lambda x: -len(x[1]))`: a stable sort
by descending length of the rendered call text. -/
def sort_desc_by_len : List RewriteDirective → List RewriteDirective
  | [] => []
  | d :: ds => insert_desc_by_len d (sort_desc_by_len ds)

/-- `_process_single_region` from model_rewriter.py.  `plan` abstracts
the external sqlglot steps `_parse_region_to_ast` (`none` = parse
failure) composed with `_collect_functions_with_depth` and
`_filter_rewritable_functions`: from masked SQL to the surviving
rewrite directives. -/
def process_single_region (plan : Str → Option (List RewriteDirective))
    (region : SafeSqlRegion) (modified_content : Str) (offset : Int) : Str × Int :=
  match plan region.masked_sql with
  | none => (modified_content, offset)
  | some functions_to_rewrite =>
    if functions_to_rewrite = [] then (modified_content, offset)
    else
      let sorted_fns := sort_desc_by_len functions_to_rewrite
      let adjusted_start := ((region.start : Int) + offset).toNat
      let adjusted_end := ((region.end_ : Int) + offset).toNat
      let original_region_sql :=
        (modified_content.drop adjusted_start).take (adjusted_end - adjusted_start)
      let modified_region := apply_replacements_to_region original_region_sql sorted_fns
      if modified_region ≠ original_region_sql then
        (modified_content.take adjusted_start ++ modified_region ++
           modified_content.drop adjusted_end,
         offset + ((modified_region.length : Int) - (original_region_sql.length : Int)))
      else (modified_content, offset)

/-- The pure text pipeline of `_rewrite_sql_file`: empty content bails
out, an unsafe verdict bails out, otherwise every extracted span is
processed with a running offset; `modified = true` iff the final text
differs. -/
def rewrite_sql_text (lex : Str → Option (List Token))
    (plan : Str → Option (List RewriteDirective)) (original_content : Str) :
    Str × Bool :=
  if original_content = [] then (original_content, false)
  else
    let regions := analyze_jinja_template lex original_content
    if (can_safely_rewrite regions).can_rewrite = false then (original_content, false)
    else
      let safe_regions := extract_safe_sql_regions regions original_content
      let res := safe_regions.foldl
        (fun acc region => process_single_region plan region acc.1 acc.2)
        (original_content, (0 : Int))
      if res.1 ≠ original_content then (res.1, true) else (original_content, false)

/-- `_rewrite_sql_file` with the file system made explicit: `disk` is
the file's content (`none` = unreadable), the returned pair is the
content after the call and the reported `modified` flag; the write
happens only when the text changed and `dry_run` is false. -/
def rewrite_file_eff (lex : Str → Option (List Token))
    (plan : Str → Option (List RewriteDirective)) (disk : Option Str)
    (dry_run : Bool) : Option Str × Bool :=
  match disk with
  | none => (none, false)
  | some original_content =>
    let res := rewrite_sql_text lex plan original_content
    (if res.2 && !dry_run then some res.1 else disk, res.2)

/-! ## scanner.py -/

/-- `_scan_sql_file` from scanner.py; `parse_fns` abstracts the external
`extract_functions` (sqlglot parse + walk, `[]` on a parse failure),
returning the function names found in a masked span. -/
def scan_sql_file (lex : Str → Option (List Token)) (parse_fns : Str → List Str)
    (file_content : Option Str) : List Str :=
  match file_content with
  | none => []
  | some content =>
    let safe_regions :=
      extract_safe_sql_regions (analyze_jinja_template lex content) content
    safe_regions.foldl (fun acc region => acc ++ parse_fns region.masked_sql) []

/-- `scan_project` from scanner.py: tally the names over all files, then
keep only names in the known-differences set (`known_differences`
abstracts the external `get_function_differences(config.adapters)`). -/
def scan_project_tally (lex : Str → Option (List Token))
    (parse_fns : Str → List Str) (scan_flag : Bool) (files : List (Option Str))
    (known_differences : List Str) : List (Str × Nat) :=
  if scan_flag = false then []
  else
    let all_functions :=
      files.foldl (fun acc f => acc ++ scan_sql_file lex parse_fns f) []
    let tally := all_functions.dedup.map (fun n => (n, all_functions.count n))
    tally.filter (fun q => decide (q.1 ∈ known_differences))

/-! ## Claim C10: dialect normalization is idempotent -/

lemma asciiUpperLower_find_snd_none :
    ∀ p ∈ asciiUpperLower, asciiUpperLower.find? (fun q => q.1 == p.2) = none := by
  decide

lemma charLower_idem (c : Char) : charLower (charLower c) = charLower c := by
  cases h : asciiUpperLower.find? (fun p => p.1 == c) with
  | none =>
    have h1 : charLower c = c := by unfold charLower; rw [h]
    rw [h1]
    exact h1
  | some p =>
    have h1 : charLower c = p.2 := by unfold charLower; rw [h]
    rw [h1]
    have hp : p ∈ asciiUpperLower := List.mem_of_find?_eq_some h
    unfold charLower
    rw [asciiUpperLower_find_snd_none p hp]

lemma lowerStr_idem (s : Str) : lowerStr (lowerStr s) = lowerStr s := by
  unfold lowerStr
  rw [List.map_map]
  apply List.map_congr_left
  intro a _
  exact charLower_idem a

lemma dialect_map_canonical :
    ∀ p ∈ DIALECT_MAP, lowerStr p.2 = p.2 ∧
      DIALECT_MAP.find? (fun q => q.1 == p.2) = some (p.2, p.2) := by
  decide

lemma normalize_dialect_eq (u : Str) :
    normalize_dialect u =
      match DIALECT_MAP.find? (fun p => p.1 == lowerStr u) with
      | some p => p.2
      | none => lowerStr u := rfl

/-- **C10**: `normalize_dialect` is idempotent — every canonical value
of the alias table is itself a key mapping to itself, and unknown
identifiers are merely lower-cased (lower-casing being idempotent). -/
theorem c10_normalize_dialect_idempotent (s : Str) :
    normalize_dialect (normalize_dialect s) = normalize_dialect s := by
  cases h : DIALECT_MAP.find? (fun p => p.1 == lowerStr s) with
  | some p =>
    have h1 : normalize_dialect s = p.2 := by rw [normalize_dialect_eq, h]
    have hp := dialect_map_canonical p (List.mem_of_find?_eq_some h)
    rw [h1, normalize_dialect_eq, hp.1, hp.2]
  | none =>
    have h1 : normalize_dialect s = lowerStr s := by rw [normalize_dialect_eq, h]
    rw [h1, normalize_dialect_eq, lowerStr_idem, h]

/-! ## Claim C8: dry-run purity -/

/-- **C8**: `rewriteFile` with `dryRun = true` never mutates the file,
and the `modified` flag it reports equals the flag a subsequent
`dryRun = false` call on the same (unchanged) file returns. -/
theorem c8_dry_run_purity (lex : Str → Option (List Token))
    (plan : Str → Option (List RewriteDirective)) (disk : Option Str) :
    (rewrite_file_eff lex plan disk true).1 = disk ∧
    (rewrite_file_eff lex plan disk true).2 =
      (rewrite_file_eff lex plan disk false).2 := by
  cases disk with
  | none => exact ⟨rfl, rfl⟩
  | some c => simp [rewrite_file_eff]

/-! ## Claim C5: the dialect-difference check -/

lemma one_lt_length_iff_exists_pair {l : List Str} (hnd : l.Nodup) :
    1 < l.length ↔ ∃ a ∈ l, ∃ b ∈ l, a ≠ b := by
  constructor
  · intro h
    match l, h with
    | a :: b :: rest, _ =>
      refine ⟨a, by simp, b, by simp, ?_⟩
      intro hab
      subst hab
      simp [List.nodup_cons] at hnd
  · rintro ⟨a, ha, b, hb, hab⟩
    match l with
    | [] => simp at ha
    | [x] =>
      simp at ha hb
      subst ha; subst hb
      exact absurd rfl hab
    | x :: y :: rest => simp only [List.length_cons]; omega

lemma function_differs_aux_spec (node : FuncNode) :
    ∀ (ds : List Str) (acc : List Str), acc.Nodup →
    (function_differs_aux node acc ds = true ↔
      (∃ d ∈ ds, node.sqlDialect (normalize_dialect d) = none) ∨
      (∃ s1 s2 : Str, s1 ≠ s2 ∧
        (s1 ∈ acc ∨ ∃ d ∈ ds, node.sqlDialect (normalize_dialect d) = some s1) ∧
        (s2 ∈ acc ∨ ∃ d ∈ ds, node.sqlDialect (normalize_dialect d) = some s2))) := by
  intro ds
  induction ds with
  | nil =>
    intro acc hnd
    simp only [function_differs_aux, decide_eq_true_eq]
    constructor
    · intro h
      obtain ⟨a, ha, b, hb, hab⟩ := (one_lt_length_iff_exists_pair hnd).mp h
      exact Or.inr ⟨a, b, hab, Or.inl ha, Or.inl hb⟩
    · rintro (⟨d, hd, -⟩ | ⟨s1, s2, hne, h1, h2⟩)
      · exact absurd hd (List.not_mem_nil d)
      · rcases h1 with h1 | ⟨d, hd, -⟩
        · rcases h2 with h2 | ⟨d, hd, -⟩
          · exact (one_lt_length_iff_exists_pair hnd).mpr ⟨s1, h1, s2, h2, hne⟩
          · exact absurd hd (List.not_mem_nil d)
        · exact absurd hd (List.not_mem_nil d)
  | cons d rest ih =>
    intro acc hnd
    simp only [function_differs_aux]
    cases hrender : node.sqlDialect (normalize_dialect d) with
    | none =>
      constructor
      · intro _
        exact Or.inl ⟨d, List.mem_cons_self d rest, hrender⟩
      · intro _; rfl
    | some s =>
      have hnd' : (if s ∈ acc then acc else s :: acc).Nodup := by
        split
        · exact hnd
        · exact List.nodup_cons.mpr ⟨by assumption, hnd⟩
      rw [ih _ hnd']
      have hfail : (∃ d' ∈ rest, node.sqlDialect (normalize_dialect d') = none) ↔
          (∃ d' ∈ d :: rest, node.sqlDialect (normalize_dialect d') = none) := by
        constructor
        · rintro ⟨d', hd', hn⟩
          exact ⟨d', List.mem_cons_of_mem _ hd', hn⟩
        · rintro ⟨d', hd', hn⟩
          rcases List.mem_cons.mp hd' with h | h
          · subst h
            rw [hrender] at hn
            exact absurd hn (by simp)
          · exact ⟨d', h, hn⟩
      have havail : ∀ x : Str,
          ((x ∈ (if s ∈ acc then acc else s :: acc)) ∨
            ∃ d' ∈ rest, node.sqlDialect (normalize_dialect d') = some x) ↔
          ((x ∈ acc) ∨
            ∃ d' ∈ d :: rest, node.sqlDialect (normalize_dialect d') = some x) := by
        intro x
        constructor
        · rintro (hx | ⟨d', hd', hs⟩)
          · by_cases hs' : s ∈ acc
            · rw [if_pos hs'] at hx
              exact Or.inl hx
            · rw [if_neg hs'] at hx
              rcases List.mem_cons.mp hx with h | h
              · subst h
                exact Or.inr ⟨d, List.mem_cons_self _ _, hrender⟩
              · exact Or.inl h
          · exact Or.inr ⟨d', List.mem_cons_of_mem _ hd', hs⟩
        · rintro (hx | ⟨d', hd', hs⟩)
          · split
            · exact Or.inl hx
            · exact Or.inl (List.mem_cons_of_mem _ hx)
          · rcases List.mem_cons.mp hd' with h | h
            · subst h
              rw [hrender] at hs
              injection hs with hs
              subst hs
              left
              split
              · assumption
              · exact List.mem_cons_self _ _
            · exact Or.inr ⟨d', h, hs⟩
      constructor
      · rintro (hfl | ⟨s1, s2, hne, h1, h2⟩)
        · exact Or.inl (hfail.mp hfl)
        · exact Or.inr ⟨s1, s2, hne, (havail s1).mp h1, (havail s2).mp h2⟩
      · rintro (hfl | ⟨s1, s2, hne, h1, h2⟩)
        · exact Or.inl (hfail.mpr hfl)
        · exact Or.inr ⟨s1, s2, hne, (havail s1).mpr h1, (havail s2).mpr h2⟩

/-- **C5**: `_function_differs_across_dialects` returns `true` exactly
when some configured dialect fails to render the node or two configured
dialects render it differently; it returns `false` only when every
dialect renders identically.  Rendering exceptions are values of the
abstract node (`none`), never propagated: the function is total and a
failure makes it answer `true`. -/
theorem c5_function_differs (node : FuncNode) (dialects : List Str) :
    function_differs_across_dialects node dialects = true ↔
      (∃ d ∈ dialects, node.sqlDialect (normalize_dialect d) = none) ∨
      (∃ d1 ∈ dialects, ∃ d2 ∈ dialects,
        node.sqlDialect (normalize_dialect d1) ≠
          node.sqlDialect (normalize_dialect d2)) := by
  unfold function_differs_across_dialects
  rw [function_differs_aux_spec node dialects [] List.nodup_nil]
  constructor
  · rintro (h | ⟨s1, s2, hne, h1, h2⟩)
    · exact Or.inl h
    · rcases h1 with h1 | ⟨d1, hd1, hs1⟩
      · exact absurd h1 (List.not_mem_nil s1)
      · rcases h2 with h2 | ⟨d2, hd2, hs2⟩
        · exact absurd h2 (List.not_mem_nil s2)
        · refine Or.inr ⟨d1, hd1, d2, hd2, ?_⟩
          rw [hs1, hs2]
          simp [hne]
  · rintro (h | ⟨d1, hd1, d2, hd2, hne⟩)
    · exact Or.inl h
    · cases hr1 : node.sqlDialect (normalize_dialect d1) with
      | none => exact Or.inl ⟨d1, hd1, hr1⟩
      | some s1 =>
        cases hr2 : node.sqlDialect (normalize_dialect d2) with
        | none => exact Or.inl ⟨d2, hd2, hr2⟩
        | some s2 =>
          refine Or.inr ⟨s1, s2, ?_, Or.inr ⟨d1, hd1, hr1⟩, Or.inr ⟨d2, hd2, hr2⟩⟩
          intro he
          subst he
          rw [hr1, hr2] at hne
          exact hne rfl

/-! ## Claim C6: the eligibility filter -/

/-- A `COUNT(*)` node: its canonical rendering contains `*`. -/
def countStarNode : FuncNode :=
  { sqlNoDialect := "COUNT(*)".toList
    sqlDialect := fun _ => some ("COUNT(*)".toList)
    argsEmpty := false }

/-- A bare `COUNT()` node: argument-less. -/
def countBareNode : FuncNode :=
  { sqlNoDialect := "COUNT()".toList
    sqlDialect := fun _ => some ("COUNT()".toList)
    argsEmpty := true }

/-- **C6**: the eligibility filter excludes a call iff its canonical
rendering contains `*` or it is argument-less with lowercased name in
`count/sum/min/max/avg`; in particular `COUNT(*)` and bare `COUNT()`
pass through `_filter_rewritable_functions` unrewritten for every
configured dialect list and primary dialect. -/
theorem c6_eligibility_filter :
    (∀ (func_name : Str) (node : FuncNode),
      should_rewrite_function func_name node = false ↔
        ('*' ∈ node.sqlNoDialect ∨
          (node.argsEmpty = true ∧ lowerStr func_name ∈ UNIFORM_AGG_NAMES))) ∧
    (∀ (dialects : List Str) (primary_dialect : Str),
      filter_rewritable_functions [(0, "COUNT".toList, countStarNode)]
          dialects primary_dialect = Except.ok [] ∧
      filter_rewritable_functions [(0, "COUNT".toList, countBareNode)]
          dialects primary_dialect = Except.ok []) := by
  constructor
  · intro fn node
    unfold should_rewrite_function
    by_cases h : '*' ∈ node.sqlNoDialect
    · simp [h]
    · cases ha : node.argsEmpty <;> simp [h, ha]
  · intro dialects primary_dialect
    have h1 : should_rewrite_function "COUNT".toList countStarNode = false := by decide
    have h2 : should_rewrite_function "COUNT".toList countBareNode = false := by decide
    constructor
    · simp only [filter_rewritable_functions]
      rw [h1]
      simp [filter_rewritable_functions]
    · simp only [filter_rewritable_functions]
      rw [h2]
      simp [filter_rewritable_functions]

/-! ## Claim C4: the masked-span projection -/

/-- A sample safe-expression region. -/
def safeExprRegionEx : JinjaRegion :=
  { start := 0
    end_ := 14
    region_type := RegionType.SAFE_EXPRESSION
    content := [obr, obr] ++ " ref(u) ".toList ++ [cbr, cbr] }

/-- A sample control-flow region covering the same span. -/
def controlFlowRegionEx : JinjaRegion :=
  { start := 0
    end_ := 14
    region_type := RegionType.CONTROL_FLOW
    content := "percent-if".toList }

/-- **C4, counterexample**: the claim says all three non-static region
kinds are replaced by one fixed comma-terminated placeholder token; but
a `SAFE_EXPRESSION` region is masked as `" __PLACEHOLDER__ "`, which is
not comma-terminated and differs from the `" __JINJA__, "` used for
control-flow and unsafe regions. -/
theorem c4_counterexample :
    maskRegions [safeExprRegionEx] = " __PLACEHOLDER__ ".toList ∧
    (maskRegions [safeExprRegionEx]).getLast? ≠ some ',' ∧
    maskRegions [safeExprRegionEx] ≠ maskRegions [controlFlowRegionEx] := by
  decide

/-- **C4, amended**: `extract_safe_sql_regions` builds the masked text
by passing `STATIC` content through verbatim, replacing each
`SAFE_EXPRESSION` with `" __PLACEHOLDER__ "` and each `CONTROL_FLOW`
or `UNSAFE` region with the comma-terminated `" __JINJA__, "`; it
returns the empty list iff the masked text is whitespace-only, and
otherwise exactly one span covering `[0, len sourceText)`. -/
theorem c4_extract_masked_spans (regions : List JinjaRegion) (t : Str) :
    (∀ (r : JinjaRegion) (rs : List JinjaRegion),
      maskRegions (r :: rs) =
        (if r.region_type = RegionType.STATIC then r.content
         else if r.region_type = RegionType.SAFE_EXPRESSION then
           " __PLACEHOLDER__ ".toList
         else " __JINJA__, ".toList) ++ maskRegions rs) ∧
    (extract_safe_sql_regions regions t = [] ↔
      stripPy (maskRegions regions) = []) ∧
    (stripPy (maskRegions regions) ≠ [] →
      extract_safe_sql_regions regions t =
        [{ start := 0, end_ := t.length, masked_sql := maskRegions regions }]) := by
  refine ⟨?_, ?_, ?_⟩
  · intro r rs
    cases hr : r.region_type <;> simp [maskRegions, hr]
  · unfold extract_safe_sql_regions
    by_cases h : stripPy (maskRegions regions) = []
    · rw [if_neg (fun hc => hc h)]
      simp [h]
    · rw [if_pos h]
      simp [h]
  · intro h
    unfold extract_safe_sql_regions
    rw [if_pos h]

/-- Witness for C4's amended theorem at a concrete region list. -/
theorem c4_extract_masked_spans_witness :
    extract_safe_sql_regions
        [{ start := 0, end_ := 8, region_type := RegionType.STATIC,
           content := "SELECT 1".toList }] ("SELECT 1".toList) =
      [{ start := 0, end_ := 8,
         masked_sql := maskRegions
           [{ start := 0, end_ := 8, region_type := RegionType.STATIC,
              content := "SELECT 1".toList }] }] :=
  (c4_extract_masked_spans
      [{ start := 0, end_ := 8, region_type := RegionType.STATIC,
         content := "SELECT 1".toList }] ("SELECT 1".toList)).2.2 (by decide)

/-! ## Claim C3: the unsafe veto -/

lemma rewrite_sql_text_unsafe (lex : Str → Option (List Token))
    (plan : Str → Option (List RewriteDirective)) (c : Str)
    (h : hasUnsafeRegion (analyze_jinja_template lex c) = true) :
    rewrite_sql_text lex plan c = (c, false) := by
  unfold rewrite_sql_text
  split
  · rfl
  · rw [if_pos]
    simp [can_safely_rewrite, h]

/-- **C3**: a source whose region list contains an `UNSAFE` region gets
`can_rewrite = false` and is left byte-identical with `modified =
false` by the rewrite pipeline; with no `UNSAFE` region the verdict is
`can_rewrite = true`. -/
theorem c3_unsafe_veto (lex : Str → Option (List Token))
    (plan : Str → Option (List RewriteDirective)) (c : Str) :
    (hasUnsafeRegion (analyze_jinja_template lex c) = true →
      (can_safely_rewrite (analyze_jinja_template lex c)).can_rewrite = false ∧
      rewrite_sql_text lex plan c = (c, false)) ∧
    (hasUnsafeRegion (analyze_jinja_template lex c) = false →
      (can_safely_rewrite (analyze_jinja_template lex c)).can_rewrite = true) := by
  constructor
  · intro h
    exact ⟨by simp [can_safely_rewrite, h], rewrite_sql_text_unsafe lex plan c h⟩
  · intro h
    simp [can_safely_rewrite, h]

/-- A lexer that always fails, making any text a single unsafe region. -/
def lexNone : Str → Option (List Token) := fun _ => none

/-- A plan with no parseable spans. -/
def planNone : Str → Option (List RewriteDirective) := fun _ => none

/-- Witness for C3 at a concrete unsafe source. -/
theorem c3_unsafe_veto_witness :
    (can_safely_rewrite
        (analyze_jinja_template lexNone ("SELECT 1".toList))).can_rewrite = false ∧
    rewrite_sql_text lexNone planNone ("SELECT 1".toList) =
      ("SELECT 1".toList, false) :=
  (c3_unsafe_veto lexNone planNone ("SELECT 1".toList)).1 (by decide)

/-! ## Claim C7: scan aggregation -/

/-- A source text with an unsafe expression inside a function call:
`SELECT FOO( {{y}} x) FROM t` (token values concatenated). -/
def cC7 : Str :=
  "SELECT FOO( ".toList ++ [obr, obr] ++ "y".toList ++ [cbr, cbr] ++
    " x) FROM t".toList

/-- The Jinja2 token stream of `cC7`. -/
def tsC7 : List Token :=
  [{ type := "data", value := "SELECT FOO( ".toList },
   { type := "variable_begin", value := [obr, obr] },
   { type := "name", value := "y".toList },
   { type := "variable_end", value := [cbr, cbr] },
   { type := "data", value := " x) FROM t".toList }]

/-- A lexer observing `cC7` as `tsC7`. -/
def lexC7 : Str → Option (List Token) := fun _ => some tsC7

/-- The masked text of `cC7`. -/
def maskedC7 : Str :=
  "SELECT FOO( ".toList ++ " __JINJA__, ".toList ++ " x) FROM t".toList

/-- A SQL-parse oracle that parses the masked text of `cC7` (which is
`SELECT FOO(  __JINJA__,  x) FROM t`, valid SQL) and finds `FOO`. -/
def parseC7 : Str → List Str :=
  fun m => if m = maskedC7 then ["FOO".toList] else []

/-- **C7, counterexample**: `_scan_sql_file` never consults
`can_safely_rewrite`, so a file whose region list contains an `UNSAFE`
region still contributes occurrences to the scan tally whenever its
masked SQL parses. -/
theorem c7_counterexample :
    hasUnsafeRegion (analyze_jinja_template lexC7 cC7) = true ∧
    scan_sql_file lexC7 parseC7 (some cC7) = ["FOO".toList] := by
  decide

lemma foldl_append_parse_nil (parse_fns : Str → List Str)
    (l : List SafeSqlRegion) (h : ∀ sp ∈ l, parse_fns sp.masked_sql = []) :
    ∀ acc : List Str, l.foldl (fun a r => a ++ parse_fns r.masked_sql) acc = acc := by
  induction l with
  | nil => intro acc; rfl
  | cons sp rest ih =>
    intro acc
    simp only [List.foldl_cons]
    rw [h sp (List.mem_cons_self _ _), List.append_nil]
    exact ih (fun x hx => h x (List.mem_cons_of_mem _ hx)) acc

/-- **C7, amended**: unreadable files contribute zero, files all of
whose masked spans fail to parse contribute zero, and the returned
mapping's keys are exactly the tallied names that are also in the
oracle's catalog-differences set; unsafe-classified files are *not*
excluded — their masked spans are parsed like any other (see
`c7_counterexample`). -/
theorem c7_scan_aggregation (lex : Str → Option (List Token))
    (parse_fns : Str → List Str) (files : List (Option Str))
    (known_differences : List Str) :
    scan_sql_file lex parse_fns none = [] ∧
    (∀ c : Str,
      (∀ sp ∈ extract_safe_sql_regions (analyze_jinja_template lex c) c,
        parse_fns sp.masked_sql = []) →
      scan_sql_file lex parse_fns (some c) = []) ∧
    (∀ name : Str,
      (∃ cnt, (name, cnt) ∈
        scan_project_tally lex parse_fns true files known_differences) ↔
      (name ∈ files.foldl (fun acc f => acc ++ scan_sql_file lex parse_fns f) [] ∧
        name ∈ known_differences)) := by
  refine ⟨rfl, ?_, ?_⟩
  · intro c h
    unfold scan_sql_file
    exact foldl_append_parse_nil parse_fns _ h []
  · intro name
    simp only [scan_project_tally]
    rw [if_neg (by simp : ¬(true = false))]
    constructor
    · rintro ⟨cnt, hmem⟩
      rw [List.mem_filter] at hmem
      obtain ⟨hmem, hkd⟩ := hmem
      simp only [decide_eq_true_eq] at hkd
      rw [List.mem_map] at hmem
      obtain ⟨n, hn, heq⟩ := hmem
      rw [Prod.mk.injEq] at heq
      obtain ⟨rfl, -⟩ := heq
      exact ⟨List.mem_dedup.mp hn, hkd⟩
    · rintro ⟨hall, hkd⟩
      refine ⟨(files.foldl (fun acc f => acc ++ scan_sql_file lex parse_fns f)
          []).count name,
        List.mem_filter.mpr ⟨?_, by simp [hkd]⟩⟩
      exact List.mem_map.mpr ⟨name, List.mem_dedup.mpr hall, rfl⟩

/-- A SQL-parse oracle that never finds functions. -/
def parseNil : Str → List Str := fun _ => []

/-- Witness for C7's amended theorem. -/
theorem c7_scan_aggregation_witness :
    scan_sql_file lexNone parseNil (some ("SELECT 1".toList)) = [] :=
  (c7_scan_aggregation lexNone parseNil [] []).2.1 ("SELECT 1".toList)
    (fun _ _ => rfl)

/-! ## Claim C9: longest-match-first substitution -/

lemma insert_desc_perm (d : RewriteDirective) (l : List RewriteDirective) :
    (insert_desc_by_len d l).Perm (d :: l) := by
  induction l with
  | nil => exact List.Perm.refl _
  | cons e es ih =>
    simp only [insert_desc_by_len]
    split
    · exact List.Perm.refl _
    · exact (ih.cons e).trans (List.Perm.swap d e es)

lemma sort_desc_perm (l : List RewriteDirective) :
    (sort_desc_by_len l).Perm l := by
  induction l with
  | nil => exact List.Perm.refl _
  | cons d ds ih =>
    exact (insert_desc_perm d (sort_desc_by_len ds)).trans (ih.cons d)

lemma mem_insert_desc {x d : RewriteDirective} {l : List RewriteDirective} :
    x ∈ insert_desc_by_len d l ↔ x = d ∨ x ∈ l := by
  rw [(insert_desc_perm d l).mem_iff, List.mem_cons]

lemma insert_desc_sorted (d : RewriteDirective) (l : List RewriteDirective)
    (h : List.Pairwise (fun a b : RewriteDirective => b.2.1.length ≤ a.2.1.length) l) :
    List.Pairwise (fun a b : RewriteDirective => b.2.1.length ≤ a.2.1.length)
      (insert_desc_by_len d l) := by
  induction l with
  | nil => simp [insert_desc_by_len]
  | cons e es ih =>
    rw [List.pairwise_cons] at h
    obtain ⟨he, hes⟩ := h
    simp only [insert_desc_by_len]
    split
    · rename_i hle
      rw [List.pairwise_cons]
      refine ⟨?_, List.pairwise_cons.mpr ⟨he, hes⟩⟩
      intro x hx
      rcases List.mem_cons.mp hx with rfl | hx
      · exact hle
      · exact le_trans (he x hx) hle
    · rename_i hgt
      rw [List.pairwise_cons]
      refine ⟨?_, ih hes⟩
      intro x hx
      rcases mem_insert_desc.mp hx with rfl | hx
      · exact le_of_not_le hgt
      · exact he x hx

lemma sort_desc_sorted (l : List RewriteDirective) :
    List.Pairwise (fun a b : RewriteDirective => b.2.1.length ≤ a.2.1.length)
      (sort_desc_by_len l) := by
  induction l with
  | nil => simp [sort_desc_by_len]
  | cons d ds ih => exact insert_desc_sorted d _ ih

lemma findFirstIdx_spec (needle : Str) : ∀ (hay : Str) (i : Nat),
    findFirstIdx needle hay = some i →
    needle.isPrefixOf (hay.drop i) = true ∧
    ∀ j, j < i → ¬needle.isPrefixOf (hay.drop j) = true := by
  intro hay
  induction hay with
  | nil =>
    intro i h
    simp only [findFirstIdx] at h
    split at h
    · cases h
      refine ⟨by assumption, ?_⟩
      intro j hj
      omega
    · cases h
  | cons c rest ih =>
    intro i h
    simp only [findFirstIdx] at h
    split at h
    · cases h
      refine ⟨by simpa using ‹needle.isPrefixOf (c :: rest) = true›, ?_⟩
      intro j hj
      omega
    · rw [Option.map_eq_some'] at h
      obtain ⟨i', hi', rfl⟩ := h
      obtain ⟨hpre, hmin⟩ := ih i' hi'
      refine ⟨by simpa [List.drop_succ_cons] using hpre, ?_⟩
      intro j hj
      match j with
      | 0 =>
        simpa using ‹¬needle.isPrefixOf (c :: rest) = true›
      | j' + 1 =>
        have := hmin j' (by omega)
        simpa [List.drop_succ_cons] using this

/-- **C9**: surviving directives are sorted into descending order of the
length of their rendered call text (a permutation of the directive
list); each directive is applied to the current span text in turn; the
pattern search is exact-match first with a case-insensitive fallback
that recovers the original casing from the span; a found first
occurrence is replaced only when the text before it does not hold more
unmatched `"{{"` openers than `"}}"` closers, and the replacement
touches exactly the first occurrence, keeping the text before and after
it unchanged. -/
theorem c9_longest_match_first_substitution :
    (∀ fns : List RewriteDirective,
      (sort_desc_by_len fns).Perm fns ∧
      List.Pairwise (fun a b : RewriteDirective => b.2.1.length ≤ a.2.1.length)
        (sort_desc_by_len fns)) ∧
    (∀ (region : Str) (d : RewriteDirective) (ds : List RewriteDirective),
      apply_replacements_to_region region (d :: ds) =
        apply_replacements_to_region (apply_step_to_region region d) ds) ∧
    (∀ func_sql region : Str, isSubstrOf func_sql region = true →
      find_pattern_in_region func_sql region = some func_sql) ∧
    (∀ func_sql region : Str, isSubstrOf func_sql region = false →
      ∀ i, findFirstIdx (lowerStr func_sql) (lowerStr region) = some i →
        find_pattern_in_region func_sql region =
          some ((region.drop i).take func_sql.length) ∧
        lowerStr ((region.drop i).take func_sql.length) = lowerStr func_sql) ∧
    (∀ func_sql region : Str, isSubstrOf func_sql region = false →
      isSubstrOf (lowerStr func_sql) (lowerStr region) = false →
      find_pattern_in_region func_sql region = none) ∧
    (∀ (region : Str) (d : RewriteDirective) (p : Str) (i : Nat),
      find_pattern_in_region d.2.1 region = some p →
      findFirstIdx p region = some i →
      ((p.isPrefixOf (region.drop i) = true ∧
        ∀ j, j < i → ¬p.isPrefixOf (region.drop j) = true) ∧
       (is_inside_jinja_expr p region = false →
        apply_step_to_region region d =
          region.take i ++ d.2.2 ++ region.drop (i + p.length)) ∧
       (is_inside_jinja_expr p region = true →
        apply_step_to_region region d = region) ∧
       (is_inside_jinja_expr p region = true ↔
        ((countOccur jinjaOpenDelim (region.take i) : Int) -
          (countOccur jinjaCloseDelim (region.take i) : Int)) > 0))) := by
  refine ⟨?_, ?_, ?_, ?_, ?_, ?_⟩
  · intro fns
    exact ⟨sort_desc_perm fns, sort_desc_sorted fns⟩
  · intro region d ds
    rfl
  · intro func_sql region h
    unfold find_pattern_in_region
    rw [if_pos h]
  · intro func_sql region hno i hfind
    have hsub : isSubstrOf (lowerStr func_sql) (lowerStr region) = true := by
      rw [isSubstrOf, hfind]
      rfl
    constructor
    · unfold find_pattern_in_region
      rw [if_neg (by simp [hno]), if_pos hsub, hfind]
      rfl
    · have hpre := (findFirstIdx_spec _ _ _ hfind).1
      rw [ List.isPrefixOf_iff_prefix] at hpre
      have hcomm : lowerStr ((region.drop i).take func_sql.length) =
          ((lowerStr region).drop i).take (lowerStr func_sql).length := by
        simp [lowerStr, List.map_take, List.map_drop]
      rw [hcomm, ← List.prefix_iff_eq_take.mp hpre]
  · intro func_sql region hno hno2
    unfold find_pattern_in_region
    rw [if_neg (by simp [hno]), if_neg (by simp [hno2])]
  · intro region d p i hpat hfind
    refine ⟨findFirstIdx_spec _ _ _ hfind, ?_, ?_, ?_⟩
    · intro hguard
      unfold apply_step_to_region
      rw [hpat]
      simp only [hguard, Bool.false_eq_true, if_false]
      unfold replaceFirst
      rw [hfind]
    · intro hguard
      unfold apply_step_to_region
      rw [hpat]
      simp only [hguard, if_true]
    · unfold is_inside_jinja_expr
      rw [hfind]
      simp

/-- Witness for C9: the first `DATEADD(x)` occurrence is replaced, the
second one is untouched. -/
theorem c9_longest_match_first_substitution_witness :
    apply_step_to_region ("a DATEADD(x) b DATEADD(x)".toList)
        (0, "DATEADD(x)".toList, "M".toList) =
      "a ".toList ++ "M".toList ++ " b DATEADD(x)".toList := by
  have h := c9_longest_match_first_substitution.2.2.2.2.2
    ("a DATEADD(x) b DATEADD(x)".toList) (0, "DATEADD(x)".toList, "M".toList)
    ("DATEADD(x)".toList) 2 (by decide) (by decide)
  exact (h.2.1 (by decide)).trans (by decide)

/-! ## Claim C2: idempotence of the rewrite -/

/-- The leading text of every `_create_macro_call` result. -/
def macroCallLeadText : Str := [obr, obr, ' '] ++ "portable_".toList

lemma create_macro_call_leading (nm sql : Str) :
    macroCallLeadText <+: create_macro_call nm sql := by
  cases h : matchFuncCallArgs sql with
  | none =>
    simp only [create_macro_call, h, macroCallLeadText]
    exact ⟨lowerStr nm ++ ['(', ')', ' ', cbr, cbr], by simp [List.append_assoc]⟩
  | some args =>
    simp only [create_macro_call, h, macroCallLeadText]
    split
    · exact ⟨lowerStr nm ++ ['(', sq] ++ stripPy args ++ [sq, ')', ' ', cbr, cbr],
        by simp [List.append_assoc]⟩
    · exact ⟨lowerStr nm ++ ['('] ++ stripPy args ++ [')', ' ', cbr, cbr],
        by simp [List.append_assoc]⟩

lemma findFirstIdx_isSome_of_pref (needle hay : Str)
    (h : needle.isPrefixOf hay = true) : (findFirstIdx needle hay).isSome = true := by
  cases hay <;> simp [findFirstIdx, h]

lemma isSubstrOf_of_split (needle t : Str) :
    ∀ s : Str, isSubstrOf needle (s ++ needle ++ t) = true := by
  intro s
  induction s with
  | nil =>
    simp only [List.nil_append]
    unfold isSubstrOf
    apply findFirstIdx_isSome_of_pref
    rw [ List.isPrefixOf_iff_prefix]
    exact List.prefix_append needle t
  | cons a s' ih =>
    unfold isSubstrOf
    show (findFirstIdx needle (a :: (s' ++ needle ++ t))).isSome = true
    simp only [findFirstIdx]
    split
    · rfl
    · unfold isSubstrOf at ih
      cases hfi : findFirstIdx needle (s' ++ needle ++ t) with
      | none => rw [hfi] at ih; cases ih
      | some k => simp [hfi]

lemma infix_isSubstr {needle hay : Str} (h : needle <:+: hay) :
    isSubstrOf needle hay = true := by
  obtain ⟨s, t, rfl⟩ := h
  exact isSubstrOf_of_split needle t s

lemma apply_step_infix_or_eq (region : Str) (d : RewriteDirective) :
    apply_step_to_region region d = region ∨
      d.2.2 <:+: apply_step_to_region region d := by
  cases h : find_pattern_in_region d.2.1 region with
  | none =>
    simp only [apply_step_to_region, h]
    exact Or.inl trivial
  | some p =>
    simp only [apply_step_to_region, h]
    by_cases hg : is_inside_jinja_expr p region = true
    · rw [if_pos hg]
      exact Or.inl rfl
    · rw [if_neg hg]
      unfold replaceFirst
      cases hf : findFirstIdx p region with
      | none => exact Or.inl rfl
      | some i =>
        exact Or.inr ⟨region.take i, region.drop (i + p.length), rfl⟩

lemma apply_replacements_changed (ds : List RewriteDirective) :
    ∀ region : Str, apply_replacements_to_region region ds ≠ region →
      ∃ d ∈ ds, d.2.2 <:+: apply_replacements_to_region region ds := by
  induction ds with
  | nil =>
    intro region h
    exact absurd rfl h
  | cons d ds ih =>
    intro region h
    simp only [apply_replacements_to_region] at h ⊢
    rcases apply_step_infix_or_eq region d with heq | hinf
    · rw [heq] at h ⊢
      obtain ⟨d', hd', hio⟩ := ih region h
      exact ⟨d', List.mem_cons_of_mem _ hd', hio⟩
    · by_cases h2 : apply_replacements_to_region (apply_step_to_region region d) ds
          = apply_step_to_region region d
      · rw [h2]
        exact ⟨d, List.mem_cons_self _ _, hinf⟩
      · obtain ⟨d', hd', hio⟩ := ih _ h2
        exact ⟨d', List.mem_cons_of_mem _ hd', hio⟩

lemma rewrite_sql_text_cases (lex : Str → Option (List Token))
    (plan : Str → Option (List RewriteDirective)) (c : Str) :
    rewrite_sql_text lex plan c = (c, false) ∨
    (∃ fns, plan (maskRegions (analyze_jinja_template lex c)) = some fns ∧
      fns ≠ [] ∧
      apply_replacements_to_region c (sort_desc_by_len fns) ≠ c ∧
      rewrite_sql_text lex plan c =
        (apply_replacements_to_region c (sort_desc_by_len fns), true)) := by
  by_cases hc : c = []
  · left
    unfold rewrite_sql_text
    rw [if_pos hc]
  · by_cases hU : hasUnsafeRegion (analyze_jinja_template lex c) = true
    · left
      exact rewrite_sql_text_unsafe lex plan c hU
    · rw [Bool.not_eq_true] at hU
      have hcr : ¬((can_safely_rewrite (analyze_jinja_template lex c)).can_rewrite = false) := by
        simp [can_safely_rewrite, hU]
      unfold rewrite_sql_text
      rw [if_neg hc, if_neg hcr]
      by_cases hstrip : stripPy (maskRegions (analyze_jinja_template lex c)) = []
      · have hext : extract_safe_sql_regions (analyze_jinja_template lex c) c = [] := by
          unfold extract_safe_sql_regions
          rw [if_neg (fun hcon => hcon hstrip)]
        rw [hext]
        simp only [List.foldl_nil]
        rw [if_neg (by simp)]
        exact Or.inl rfl
      · have hext : extract_safe_sql_regions (analyze_jinja_template lex c) c =
            [{ start := 0, end_ := c.length,
               masked_sql := maskRegions (analyze_jinja_template lex c) }] := by
          unfold extract_safe_sql_regions
          rw [if_pos hstrip]
        rw [hext]
        simp only [List.foldl_cons, List.foldl_nil]
        cases hplan : plan (maskRegions (analyze_jinja_template lex c)) with
        | none =>
          simp only [process_single_region, hplan]
          rw [if_neg (by simp)]
          exact Or.inl rfl
        | some fns =>
          by_cases hfns : fns = []
          · simp only [process_single_region, hplan, if_pos hfns]
            rw [if_neg (by simp)]
            exact Or.inl rfl
          · simp only [process_single_region, hplan, if_neg hfns]
            have h0 : (((0 : Nat) : Int) + 0).toNat = 0 := rfl
            have h1 : (((c.length : Nat) : Int) + 0).toNat = c.length := by simp
            simp only [h0, h1, Nat.sub_zero, List.drop_zero, List.take_length,
              List.take_zero, List.nil_append, List.drop_length, List.append_nil]
            generalize hm : apply_replacements_to_region c (sort_desc_by_len fns) = m
            by_cases hmod : m = c
            · left
              rw [if_neg (not_not_intro hmod)]
              simp
            · right
              refine ⟨fns, rfl, hfns, ?_, ?_⟩
              · rw [hm]
                exact hmod
              · rw [hm, if_pos hmod]
                simp [hmod]

/-- **C2**: running the rewrite engine on its own output is a no-op —
the text is unchanged and `modified = false`.  The two hypotheses state
the interface facts the source relies on: every directive's replacement
text comes from `_create_macro_call` (so it starts with
`{{ portable_`), and any text containing `{{ portable_` is classified
with an unsafe region by the Jinja2 lexer, because `portable_*` is not
in `_SAFE_FUNCTIONS` — which is the actual mechanism making a second
pass a no-op (the safety veto, not the portability filter). -/
theorem c2_rewrite_idempotent (lex : Str → Option (List Token))
    (plan : Str → Option (List RewriteDirective))
    (hPlan : ∀ m dirs, plan m = some dirs →
      ∀ d ∈ dirs, ∃ nm sql, d.2.2 = create_macro_call nm sql)
    (hLex : ∀ u : Str, macroCallLeadText <:+: u →
      hasUnsafeRegion (analyze_jinja_template lex u) = true)
    (c : Str) :
    rewrite_sql_text lex plan ((rewrite_sql_text lex plan c).1) =
      ((rewrite_sql_text lex plan c).1, false) := by
  rcases rewrite_sql_text_cases lex plan c with hcase | ⟨fns, hplan, hfns, hmod, hcase⟩
  · rw [hcase]
    exact hcase
  · rw [hcase]
    apply rewrite_sql_text_unsafe
    apply hLex
    obtain ⟨d, hd, hio⟩ := apply_replacements_changed _ c hmod
    obtain ⟨nm, sql, hm⟩ := hPlan _ fns hplan d ((sort_desc_perm fns).mem_iff.mp hd)
    have hlead : macroCallLeadText <+: d.2.2 := by
      rw [hm]
      exact create_macro_call_leading nm sql
    exact hlead.isInfix.trans hio

/-- A lexer refusing any text containing `{{ portable_` (the real
Jinja2 lexer instead tokenizes it into an expression whose first name
is `portable_*`, which is not in the safe set — same unsafe verdict). -/
def lexVeto : Str → Option (List Token) :=
  fun s =>
    if isSubstrOf macroCallLeadText s then none
    else some [{ type := "data", value := s }]

/-- Witness for C2 at a concrete source text. -/
theorem c2_rewrite_idempotent_witness :
    rewrite_sql_text lexVeto planNone
        ((rewrite_sql_text lexVeto planNone ("SELECT 1".toList)).1) =
      ((rewrite_sql_text lexVeto planNone ("SELECT 1".toList)).1, false) :=
  c2_rewrite_idempotent lexVeto planNone
    (fun _ _ h => nomatch h)
    (fun u hinf => by
      have hs := infix_isSubstr hinf
      unfold analyze_jinja_template lexVeto
      simp [hs, hasUnsafeRegion])
    ("SELECT 1".toList)

end DbtMAU
